import Mathlib

/-
  Verification development for the vimm-downloader repository (src/main.rs).

  The program is shallowly embedded: pure helper functions of the source
  (sanitize_filename, extract_hash, get_crc_from_7z, get_crc_from_zip,
  get_crc_from_archive) become Lean functions on the same data; the
  effectful body of process_url becomes a pure function from an explicit
  network input (the results of the two HTTP requests) and an explicit
  filesystem state (the contents of the final and .pending paths of the
  target) to an outcome, a new filesystem state and a trace of the
  filesystem/network events the code performs, in source order.
  Archives are modelled by the metadata the code reads from them
  (per-entry stream/directory flags and recorded CRC values).
-/

namespace Vimm

deriving instance DecidableEq for Except

/-- Lowercase hexadecimal digit character for a value below 16,
as produced by Rust's lower-hex formatter. -/
def hexChar (n : Nat) : Char :=
  if n < 10 then Char.ofNat (48 + n) else Char.ofNat (87 + n)

/-- Worker for the hexadecimal rendering: structural recursion on a fuel
argument (any fuel at least the digit count gives the full rendering;
`toHexDigits` passes the number itself, which always suffices). -/
def toHexAux : Nat → Nat → List Char → List Char
  | 0, _, acc => acc
  | fuel + 1, n, acc =>
    if n < 16 then hexChar n :: acc
    else toHexAux fuel (n / 16) (hexChar (n % 16) :: acc)

/-- Hexadecimal digit list of a natural number, most significant digit
first, no leading zeros (except for 0 itself). -/
def toHexDigits (n : Nat) : List Char :=
  toHexAux (n + 1) n []

/-- Rust's `format!("\x7b:08x\x7d", n)`: lowercase hexadecimal,
zero-padded on the left to at least eight characters. -/
def formatHex8 (n : Nat) : String :=
  String.mk (List.replicate (8 - (toHexDigits n).length) '0' ++ toHexDigits n)

/-- Byte count of a character in UTF-8 (Rust `str::len` counts bytes). -/
def charUtf8Size (c : Char) : Nat :=
  if c.toNat < 0x80 then 1
  else if c.toNat < 0x800 then 2
  else if c.toNat < 0x10000 then 3
  else 4

/-- UTF-8 byte length of a character list, i.e. Rust `str::len`. -/
def utf8Len : List Char → Nat
  | [] => 0
  | c :: rest => charUtf8Size c + utf8Len rest

/-- The whitespace characters trimmed by Rust's `str::trim` (modelled on
the ASCII part of Unicode White_Space, which is all the page data in
question can contain). -/
def isRustWhitespace (c : Char) : Bool :=
  c == ' ' || c == '\t' || c == '\n' || c == '\r' ||
  c == Char.ofNat 11 || c == Char.ofNat 12

/-- Rust `str::trim` on a character list: strip whitespace from both
ends. -/
def trimList (l : List Char) : List Char :=
  ((l.dropWhile isRustWhitespace).reverse.dropWhile isRustWhitespace).reverse

/-- Rust `char::to_lowercase` on the ASCII range (all the strings the
program lowercases are ASCII). -/
def rustLowerChar (c : Char) : Char :=
  if 65 ≤ c.toNat && c.toNat ≤ 90 then Char.ofNat (c.toNat + 32) else c

/-- Worker for split-on-substring: structural recursion on fuel (the
callers pass the list length, which always suffices since every step
consumes at least one element). -/
def splitOnListAux (sep : List Char) : Nat → List Char → List Char → List (List Char)
  | _, [], acc => [acc.reverse]
  | 0, l, acc => [acc.reverse ++ l]
  | fuel + 1, c :: rest, acc =>
    if sep.isPrefixOf (c :: rest) then
      acc.reverse :: splitOnListAux sep fuel (List.drop sep.length (c :: rest)) []
    else
      splitOnListAux sep fuel rest (c :: acc)

/-- Split a character list on every non-overlapping occurrence of `sep`,
left to right — the splitting underlying Rust `str::split` on a string
pattern and `str::replace`. -/
def splitOnList (sep l : List Char) : List (List Char) :=
  if sep.isEmpty then [l] else splitOnListAux sep l.length l []

/-- Join chunks with a separator. -/
def intercalateList (sep : List Char) : List (List Char) → List Char
  | [] => []
  | [x] => x
  | x :: xs => x ++ sep ++ intercalateList sep xs

/-- Rust `str::trim` on strings. -/
def rustTrim (s : String) : String :=
  String.mk (trimList s.data)

/-- Rust `str::to_lowercase` on strings (ASCII model). -/
def rustToLower (s : String) : String :=
  String.mk (s.data.map rustLowerChar)

/-- Rust `str::len`: the UTF-8 byte length. -/
def rustLen (s : String) : Nat :=
  utf8Len s.data

/-- Rust `str::split` on a string pattern, collected into a list. -/
def rustSplit (s pat : String) : List String :=
  (splitOnList pat.data s.data).map String.mk

/-- One entry of a 7z archive as the sevenz_rust library exposes it:
`has_stream()`, `is_directory()` and the recorded `crc` field (a u64 field
populated from a 32-bit CRC read from the archive header). -/
structure SevenZEntry where
  has_stream : Bool
  is_directory : Bool
  crc : Nat
deriving DecidableEq

/-- One entry of a zip archive: `is_dir()` and the `crc32()` field (u32). -/
structure ZipEntry where
  is_dir : Bool
  crc32 : Nat
deriving DecidableEq

/-- The content of a file as far as the archive-inspection code can see it:
a parseable 7z archive, a parseable zip archive, or bytes that neither
library accepts. -/
inductive ArchiveContent where
  | sevenZ (files : List SevenZEntry)
  | zipArchive (entries : List ZipEntry)
  | unreadable
deriving DecidableEq

/-- The failures of get_crc_from_archive / get_crc_from_7z /
get_crc_from_zip, one constructor per distinct `bail!`/`context` site. -/
inductive CrcError where
  | unsupportedFormat (ext : String)
  | open7zFailed
  | openZipFailed
  | noCrcIn7z
  | noCrcInZip
deriving DecidableEq

/-- The entry loop of get_crc_from_7z: scan `reader.archive().files` in
order; for an entry with a stream that is not a directory, return its CRC
(formatted `\x7b:08x\x7d`) when nonzero, otherwise keep scanning. -/
def crcScan7z : List SevenZEntry → Except CrcError String
  | [] => .error .noCrcIn7z
  | e :: rest =>
    if e.has_stream && !e.is_directory then
      if e.crc != 0 then .ok (formatHex8 e.crc) else crcScan7z rest
    else crcScan7z rest

/-- get_crc_from_7z: open the file as a 7z archive (failing when the bytes
are not a 7z archive) and scan its entries. -/
def get_crc_from_7z : ArchiveContent → Except CrcError String
  | .sevenZ files => crcScan7z files
  | _ => .error .open7zFailed

/-- The entry loop of get_crc_from_zip: scan entries by index; for a
non-directory entry return its crc32 (formatted `\x7b:08x\x7d`) when
nonzero, otherwise keep scanning. -/
def crcScanZip : List ZipEntry → Except CrcError String
  | [] => .error .noCrcInZip
  | e :: rest =>
    if !e.is_dir then
      if e.crc32 != 0 then .ok (formatHex8 e.crc32) else crcScanZip rest
    else crcScanZip rest

/-- get_crc_from_zip: open the file as a zip archive (failing when the
bytes are not a zip archive) and scan its entries. -/
def get_crc_from_zip : ArchiveContent → Except CrcError String
  | .zipArchive entries => crcScanZip entries
  | _ => .error .openZipFailed

/-- Rust `Path::extension()` on a bare file name: the part after the last
dot, none when there is no dot or when the only dot is a leading one. -/
def rustPathExtension (name : String) : Option String :=
  match rustSplit name "." with
  | [] => none
  | [_] => none
  | ["", _] => none
  | ps => ps.getLast?

/-- get_crc_from_archive: dispatch on the lowercased file extension
(empty string when the path has none); `7z` and `zip` are supported, any
other extension is an unsupported archive format. -/
def get_crc_from_archive (fileName : String) (c : ArchiveContent) : Except CrcError String :=
  let extension := ((rustPathExtension fileName).map rustToLower).getD ""
  if extension == "7z" then get_crc_from_7z c
  else if extension == "zip" then get_crc_from_zip c
  else .error (.unsupportedFormat extension)

/-- Rust `str::replace`: replace every non-overlapping occurrence of
`pat` in `s` with `rep`, left to right. -/
def replaceAll (s pat rep : String) : String :=
  String.mk (intercalateList rep.data (splitOnList pat.data s.data))

/-- The apostrophe character (written via its code point so that the
source strings below can be built without a quote character). -/
def apostrophe : Char := Char.ofNat 39

/-- The literal prefix removed first by sanitize_filename. -/
def vimmsLairDash : String := "Vimm" ++ String.singleton apostrophe ++ "s Lair - "

/-- The literal removed second by sanitize_filename. -/
def vimmsLairBare : String := "Vimm" ++ String.singleton apostrophe ++ "s Lair"

/-- The first step of sanitize_filename: strip the site-name prefixes and
trim whitespace. -/
def stripTitle (title : String) : String :=
  rustTrim (replaceAll (replaceAll title vimmsLairDash "") vimmsLairBare "")

/-- The characters sanitize_filename replaces with an underscore. -/
def forbiddenChar (c : Char) : Bool :=
  c == '<' || c == '>' || c == ':' || c == '"' || c == '/' ||
  c == '\\' || c == '|' || c == '?' || c == '*'

/-- The per-character map of sanitize_filename: forbidden path characters
become `_`, every other character is kept. -/
def mapFilenameChar (c : Char) : Char :=
  if forbiddenChar c then '_' else c

/-- sanitize_filename: strip/trim the title; when the result is empty or
shorter than 3 bytes use `game_<vault_id>` instead; replace forbidden
characters; truncate to 200 characters. -/
def sanitize_filename (title : String) (vault_id : String) : String :=
  let t := stripTitle title
  let base_name := if t == "" || rustLen t < 3 then "game_" ++ vault_id else t
  let cleaned := String.mk (base_name.data.map mapFilenameChar)
  String.mk (cleaned.data.take 200)

/-- extract_hash: given the text of the checksum span (none when the span
or its first text node is absent), trim it and lowercase it. -/
def extract_hash (spanText : Option String) : Option String :=
  spanText.map (fun s => rustToLower (rustTrim s))

/-- `url.split('/').last().unwrap_or("unknown")`. -/
def vaultIdOf (url : String) : String :=
  ((rustSplit url "/").getLast?).getD "unknown"

/-- Rust `str::trim_matches(c)`: strip every leading and trailing
occurrence of `c`. -/
def rustTrimMatches (c : Char) (s : String) : String :=
  String.mk (((s.data.dropWhile (· == c)).reverse.dropWhile (· == c)).reverse)

/-- The content-disposition handling of process_url: when the header is
present and contains `filename=`, take what follows and strip the
surrounding quotes; otherwise fall back to the page-derived name. -/
def dispositionFilename (disp : Option String) (fallback : String) : String :=
  match disp with
  | some dispStr =>
    match (rustSplit dispStr "filename=").get? 1 with
    | some part => rustTrimMatches '"' part
    | none => fallback
  | none => fallback

/-- The two on-disk paths of one target: `downloads/<name>` and
`downloads/<name>.pending`. -/
inductive PathId where
  | finalPath
  | pendingPath
deriving DecidableEq

/-- The observable filesystem / network events of one process_url call,
in the order the code performs them. `extract` (unpacking an archive)
is included so that its absence from every trace can be stated: the
source never unpacks an archive. -/
inductive Ev where
  | fetchPage
  | sendDownloadRequest
  | inspectCrc (p : PathId)
  | extract
  | createPending
  | streamBody
  | renamePendingToFinal
  | removeFile (p : PathId)
deriving DecidableEq

/-- The state of the staging (`.pending`) file: partially written (a
download attempt stopped mid-stream) or fully written. -/
inductive PendingFile where
  | incomplete
  | complete (content : ArchiveContent)
deriving DecidableEq

/-- The filesystem state of one target: what is at the final path and
what is at the `.pending` path. -/
structure FS where
  final : Option ArchiveContent
  pending : Option PendingFile
deriving DecidableEq

/-- The parsing results of the vault page fetch: the download form
(action URL and mediaId) when found, the raw text of the CRC span when
present, and the page title text when present. -/
structure PageData where
  form : Option (String × String)
  crcSpan : Option String
  titleText : Option String
deriving DecidableEq

/-- The body of the download response: fully streamed content, or a read
error somewhere mid-stream. -/
inductive BodyResult where
  | complete (content : ArchiveContent)
  | midStreamError
deriving DecidableEq

/-- The download response: HTTP status success flag, the
content-disposition header when present, and the body. -/
structure DownloadResponse where
  statusOk : Bool
  contentDisposition : Option String
  body : BodyResult
deriving DecidableEq

/-- The network environment of one process_url call: the vault page fetch
(none = connection failure) and the download request (none = connection
failure). -/
structure NetInput where
  page : Option PageData
  download : Option DownloadResponse
deriving DecidableEq

/-- The `anyhow` error exits of process_url, one per bail/`?` site the
model can reach. -/
inductive ErrKind where
  | pageFetchFailed
  | noDownloadForm
  | noCrcOnPage
  | downloadSendFailed
  | httpStatus
  | midStreamRead
  | crcReadAfterDownload (e : CrcError)
  | crcMismatchAfterDownload
deriving DecidableEq

/-- The three `panic!` sites, all guarded by the test-mode flag. -/
inductive PanicKind where
  | mismatchExisting
  | crcReadExisting
  | mismatchDownloaded
deriving DecidableEq

/-- How one process_url call ends: `Ok(downloaded)`, an `anyhow` error,
or a test-mode panic. -/
inductive Outcome where
  | ok (downloaded : Bool)
  | err (e : ErrKind)
  | panicked (p : PanicKind)
deriving DecidableEq

/-- The full result of one process_url call: outcome, filesystem state
afterwards, and the event trace. -/
structure RunResult where
  outcome : Outcome
  fs : FS
  trace : List Ev
deriving DecidableEq

/-- The result of the existing-file check: an early return, or the
filesystem/trace with which the download proceeds. -/
inductive CheckResult where
  | done (r : RunResult)
  | proceed (fs : FS) (tr : List Ev)
deriving DecidableEq

/-- Lines 183-216 of main.rs: when a file exists at the final path, read
its archive CRC. On a match return `Ok(false)`; on a mismatch or a read
error, panic in test mode, otherwise delete the file and proceed to the
download. When no file exists, proceed directly. -/
def checkExisting (actual_filename expected_crc : String) (fs : FS) (tr : List Ev) (tm : Bool) : CheckResult :=
  match fs.final with
  | none => .proceed fs tr
  | some c =>
    let tr2 := tr ++ [.inspectCrc .finalPath]
    match get_crc_from_archive actual_filename c with
    | .ok archive_crc =>
      if archive_crc == expected_crc then .done ⟨.ok false, fs, tr2⟩
      else if tm then .done ⟨.panicked .mismatchExisting, fs, tr2⟩
      else .proceed ⟨none, fs.pending⟩ (tr2 ++ [.removeFile .finalPath])
    | .error _ =>
      if tm then .done ⟨.panicked .crcReadExisting, fs, tr2⟩
      else .proceed ⟨none, fs.pending⟩ (tr2 ++ [.removeFile .finalPath])

/-- Lines 218-273 of main.rs: create the `.pending` file and stream the
response body into it. A mid-stream read error aborts with the partial
`.pending` file left on disk. On full consumption the `.pending` file is
renamed to the final path, the archive CRC is read from the final path
and compared with the expected CRC: match returns `Ok(true)`; a read
error aborts keeping the file; a mismatch panics in test mode, otherwise
the file is deleted and the call aborts. -/
def downloadAndVerify (actual_filename expected_crc : String) (body : BodyResult) (fs : FS) (tr : List Ev) (tm : Bool) : RunResult :=
  let tr2 := tr ++ [.createPending, .streamBody]
  match body with
  | .midStreamError => ⟨.err .midStreamRead, ⟨fs.final, some .incomplete⟩, tr2⟩
  | .complete content =>
    let tr3 := tr2 ++ [.renamePendingToFinal, .inspectCrc .finalPath]
    match get_crc_from_archive actual_filename content with
    | .error e => ⟨.err (.crcReadAfterDownload e), ⟨some content, none⟩, tr3⟩
    | .ok archive_crc =>
      if archive_crc == expected_crc then ⟨.ok true, ⟨some content, none⟩, tr3⟩
      else if tm then ⟨.panicked .mismatchDownloaded, ⟨some content, none⟩, tr3⟩
      else ⟨.err .crcMismatchAfterDownload, ⟨none, none⟩, tr3 ++ [.removeFile .finalPath]⟩

/-- process_url (lines 80-274 of main.rs): fetch and parse the vault
page, send the download request, then run the existing-file check and,
when it does not return early, the download-and-verify phase. -/
def process_url (url : String) (net : NetInput) (fs0 : FS) (tm : Bool) : RunResult :=
  match net.page with
  | none => ⟨.err .pageFetchFailed, fs0, [.fetchPage]⟩
  | some pd =>
    match pd.form with
    | none => ⟨.err .noDownloadForm, fs0, [.fetchPage]⟩
    | some _ =>
      match extract_hash pd.crcSpan with
      | none => ⟨.err .noCrcOnPage, fs0, [.fetchPage]⟩
      | some expected_crc =>
        let filename := sanitize_filename (pd.titleText.getD "download") (vaultIdOf url)
        match net.download with
        | none => ⟨.err .downloadSendFailed, fs0, [.fetchPage, .sendDownloadRequest]⟩
        | some resp =>
          if !resp.statusOk then ⟨.err .httpStatus, fs0, [.fetchPage, .sendDownloadRequest]⟩
          else
            let actual_filename := dispositionFilename resp.contentDisposition filename
            match checkExisting actual_filename expected_crc fs0 [.fetchPage, .sendDownloadRequest] tm with
            | .done r => r
            | .proceed fs1 tr1 =>
              downloadAndVerify actual_filename expected_crc resp.body fs1 tr1 tm

/-- The two values process_url derives from the request environment when
it reaches the existing-file check: the expected CRC and the actual file
name. `none` when the call errors out before that point. -/
structure ReqInfo where
  expected_crc : String
  actual_filename : String
deriving DecidableEq

/-- The prefix of process_url up to (not including) the existing-file
check, as a partial function of the request environment. -/
def reqInfo (url : String) (net : NetInput) : Option ReqInfo :=
  match net.page with
  | none => none
  | some pd =>
    match pd.form with
    | none => none
    | some _ =>
      match extract_hash pd.crcSpan with
      | none => none
      | some expected_crc =>
        match net.download with
        | none => none
        | some resp =>
          if !resp.statusOk then none
          else some ⟨expected_crc,
            dispositionFilename resp.contentDisposition
              (sanitize_filename (pd.titleText.getD "download") (vaultIdOf url))⟩

/-- Line 13 of main.rs: the test-mode flag is the literal `false`. -/
def test_mode : Bool := false

/-- `url.contains("vimm.net/vault/")`, the filter of the main loop. -/
def urlIsValid (url : String) : Bool :=
  2 ≤ (rustSplit url "vimm.net/vault/").length

/-- What the main loop records for one line of links.txt. -/
inductive TargetReport where
  | skippedInvalid
  | downloaded
  | alreadyExists
  | errored (e : ErrKind)
  | aborted (p : PanicKind)
deriving DecidableEq

/-- One line of links.txt together with its request environment and the
on-disk state of its target. -/
structure TargetCase where
  url : String
  net : NetInput
  fs : FS

/-- One pass of the main loop over the URL list (lines 51-71 of
main.rs): skip non-vault URLs, run process_url with the test-mode flag on
each of the others, log errors and keep going; a panic aborts the whole
process. Returns the per-target reports and the `downloaded_any` flag. -/
def runPass : List TargetCase → List TargetReport × Bool
  | [] => ([], false)
  | t :: rest =>
    if !urlIsValid t.url then
      let (rs, d) := runPass rest
      (.skippedInvalid :: rs, d)
    else
      match (process_url t.url t.net t.fs test_mode).outcome with
      | .ok true => let (rs, _) := runPass rest; (.downloaded :: rs, true)
      | .ok false => let (rs, d) := runPass rest; (.alreadyExists :: rs, d)
      | .err e => let (rs, d) := runPass rest; (.errored e :: rs, d)
      | .panicked p => ([.aborted p], false)

/-- Lines 73-76 of main.rs: the 5-second sleep at the end of a pass
happens exactly when nothing was downloaded in that pass. -/
def sleepsAfterPass (downloadedAny : Bool) : Bool :=
  !downloadedAny

/-- The network requests in a trace: the vault-page GET and the download
GET. -/
def countNetworkRequests (tr : List Ev) : Nat :=
  tr.countP (fun e => e == .fetchPage || e == .sendDownloadRequest)

/-- Sanity of the archive model: every recorded CRC fits in 32 bits, as
guaranteed by both archive formats (the libraries read them as u32). -/
def WfContent : ArchiveContent → Prop
  | .sevenZ files => ∀ e ∈ files, e.crc < 2 ^ 32
  | .zipArchive entries => ∀ e ∈ entries, e.crc32 < 2 ^ 32
  | .unreadable => True

/-- A character of a lowercase hexadecimal rendering. -/
def isLowerHexChar (c : Char) : Bool :=
  c.isDigit || ('a' ≤ c && c ≤ 'f')

instance instDecidableWfContent : (c : ArchiveContent) → Decidable (WfContent c)
  | .sevenZ files => inferInstanceAs (Decidable (∀ e ∈ files, e.crc < 2 ^ 32))
  | .zipArchive entries => inferInstanceAs (Decidable (∀ e ∈ entries, e.crc32 < 2 ^ 32))
  | .unreadable => inferInstanceAs (Decidable True)

/-! ### Lemmas about the hexadecimal formatter -/

theorem hexChar_isLowerHex : ∀ m, m < 16 → isLowerHexChar (hexChar m) = true := by decide

theorem toHexAux_chars : ∀ (fuel n : Nat) (acc : List Char),
    (∀ c ∈ acc, isLowerHexChar c = true) →
    ∀ c ∈ toHexAux fuel n acc, isLowerHexChar c = true := by
  intro fuel
  induction fuel with
  | zero => intro n acc hacc c hc; exact hacc c hc
  | succ fuel ih =>
    intro n acc hacc c hc
    unfold toHexAux at hc
    by_cases h16 : n < 16
    · simp only [h16, if_true] at hc
      rcases List.mem_cons.mp hc with h | h
      · subst h; exact hexChar_isLowerHex n h16
      · exact hacc c h
    · simp only [h16, if_false] at hc
      refine ih (n / 16) (hexChar (n % 16) :: acc) ?_ c hc
      intro d hd
      rcases List.mem_cons.mp hd with h | h
      · subst h; exact hexChar_isLowerHex (n % 16) (Nat.mod_lt n (by omega))
      · exact hacc d h

theorem toHexAux_length_le : ∀ (fuel k n : Nat) (acc : List Char),
    n < 16 ^ (k + 1) → (toHexAux fuel n acc).length ≤ acc.length + (k + 1) := by
  intro fuel
  induction fuel with
  | zero => intro k n acc _; simp [toHexAux]
  | succ fuel ih =>
    intro k n acc hn
    unfold toHexAux
    by_cases h16 : n < 16
    · simp only [h16, if_true, List.length_cons]; omega
    · simp only [h16, if_false]
      match k with
      | 0 => simp at hn; omega
      | k' + 1 =>
        have hdiv : n / 16 < 16 ^ (k' + 1) := by
          rw [Nat.div_lt_iff_lt_mul (by omega)]
          calc n < 16 ^ (k' + 2) := hn
            _ = 16 ^ (k' + 1) * 16 := by rw [pow_succ]
        have := ih k' (n / 16) (hexChar (n % 16) :: acc) hdiv
        simp only [List.length_cons] at this
        omega

theorem toHexDigits_length_le (n : Nat) (h : n < 2 ^ 32) : (toHexDigits n).length ≤ 8 := by
  have h16 : n < 16 ^ 8 := by
    have : (16 : Nat) ^ 8 = 2 ^ 32 := by norm_num
    omega
  have := toHexAux_length_le (n + 1) 7 n [] h16
  simpa using this

theorem formatHex8_length (n : Nat) (h : n < 2 ^ 32) : (formatHex8 n).length = 8 := by
  have hle := toHexDigits_length_le n h
  simp only [formatHex8, String.length, String.mk, List.length_append, List.length_replicate]
  omega

theorem formatHex8_chars (n : Nat) :
    ∀ c ∈ (formatHex8 n).data, isLowerHexChar c = true := by
  intro c hc
  simp only [formatHex8, String.mk] at hc
  rcases List.mem_append.mp hc with h | h
  · have := List.eq_of_mem_replicate h
    subst this; decide
  · exact toHexAux_chars (n + 1) n [] (by simp) c h

/-! ### Lemmas about the entry scans of the Archive Inspector -/

theorem crcScan7z_eq_find (files : List SevenZEntry) :
    crcScan7z files =
      match files.find? (fun e => e.has_stream && !e.is_directory && e.crc != 0) with
      | some e => .ok (formatHex8 e.crc)
      | none => .error .noCrcIn7z := by
  induction files with
  | nil => rfl
  | cons e rest ih =>
    simp only [crcScan7z, List.find?]
    by_cases h1 : (e.has_stream && !e.is_directory) = true
    · by_cases h2 : (e.crc != 0) = true
      · simp [h1, h2, Bool.and_assoc]
      · simp only [h1, if_true, h2, if_false, ih]
        have : (e.has_stream && !e.is_directory && e.crc != 0) = false := by
          rw [Bool.and_assoc] at *
          simp only [Bool.and_eq_true] at h1
          simp [h1.1, h1.2, Bool.eq_false_iff.mpr h2]
        simp [this]
    · simp only [h1, if_false, ih]
      have : (e.has_stream && !e.is_directory && e.crc != 0) = false := by
        rcases Bool.eq_false_iff.mpr h1 with _
        cases hs : e.has_stream <;> cases hd : e.is_directory <;>
          simp_all
      simp [this]

theorem crcScanZip_eq_find (entries : List ZipEntry) :
    crcScanZip entries =
      match entries.find? (fun e => !e.is_dir && e.crc32 != 0) with
      | some e => .ok (formatHex8 e.crc32)
      | none => .error .noCrcInZip := by
  induction entries with
  | nil => rfl
  | cons e rest ih =>
    simp only [crcScanZip, List.find?]
    by_cases h1 : (!e.is_dir) = true
    · by_cases h2 : (e.crc32 != 0) = true
      · simp [h1, h2]
      · simp [h1, h2, ih]
    · simp [h1, ih]

theorem crcScan7z_ok_mem (files : List SevenZEntry) (s : String)
    (h : crcScan7z files = .ok s) : ∃ e ∈ files, s = formatHex8 e.crc := by
  induction files with
  | nil => simp [crcScan7z] at h
  | cons e rest ih =>
    simp only [crcScan7z] at h
    split at h
    next =>
      split at h
      next =>
        injection h with h
        exact ⟨e, List.mem_cons_self e rest, h.symm⟩
      next =>
        obtain ⟨e', he', hs⟩ := ih h
        exact ⟨e', List.mem_cons_of_mem e he', hs⟩
    next =>
      obtain ⟨e', he', hs⟩ := ih h
      exact ⟨e', List.mem_cons_of_mem e he', hs⟩

theorem crcScanZip_ok_mem (entries : List ZipEntry) (s : String)
    (h : crcScanZip entries = .ok s) : ∃ e ∈ entries, s = formatHex8 e.crc32 := by
  induction entries with
  | nil => simp [crcScanZip] at h
  | cons e rest ih =>
    simp only [crcScanZip] at h
    split at h
    next =>
      split at h
      next =>
        injection h with h
        exact ⟨e, List.mem_cons_self e rest, h.symm⟩
      next =>
        obtain ⟨e', he', hs⟩ := ih h
        exact ⟨e', List.mem_cons_of_mem e he', hs⟩
    next =>
      obtain ⟨e', he', hs⟩ := ih h
      exact ⟨e', List.mem_cons_of_mem e he', hs⟩

/-- A successful archive inspection returns an eight-character lowercase
hexadecimal string (its CRC field being 32 bits wide). -/
theorem get_crc_ok_props (fileName : String) (c : ArchiveContent) (s : String)
    (hw : WfContent c) (h : get_crc_from_archive fileName c = .ok s) :
    s.length = 8 ∧ ∀ ch ∈ s.data, isLowerHexChar ch = true := by
  simp only [get_crc_from_archive] at h
  split_ifs at h
  · cases c with
    | sevenZ files =>
      obtain ⟨e, he, hs⟩ := crcScan7z_ok_mem files s h
      subst hs
      exact ⟨formatHex8_length _ (hw e he), formatHex8_chars _⟩
    | zipArchive entries => simp [get_crc_from_7z] at h
    | unreadable => simp [get_crc_from_7z] at h
  · cases c with
    | zipArchive entries =>
      obtain ⟨e, he, hs⟩ := crcScanZip_ok_mem entries s h
      subst hs
      exact ⟨formatHex8_length _ (hw e he), formatHex8_chars _⟩
    | sevenZ files => simp [get_crc_from_zip] at h
    | unreadable => simp [get_crc_from_zip] at h

/-- The expected CRC that process_url compares against is the trimmed,
lowercased text of the page's CRC span. -/
theorem reqInfo_expected_crc (url : String) (net : NetInput) (ri : ReqInfo)
    (h : reqInfo url net = some ri) :
    ∃ pd raw, net.page = some pd ∧ pd.crcSpan = some raw ∧
      ri.expected_crc = rustToLower (rustTrim raw) := by
  unfold reqInfo at h
  cases hpage : net.page with
  | none => simp [hpage] at h
  | some pd =>
    simp only [hpage] at h
    cases hform : pd.form with
    | none => simp [hform] at h
    | some f =>
      simp only [hform] at h
      cases hec : extract_hash pd.crcSpan with
      | none => simp [hec] at h
      | some ec =>
        simp only [hec] at h
        cases hdl : net.download with
        | none => simp [hdl] at h
        | some resp =>
          simp only [hdl] at h
          cases hst : resp.statusOk with
          | false => simp [hst] at h
          | true =>
            simp only [hst] at h
            obtain ⟨raw, hraw, hec2⟩ := Option.map_eq_some'.mp hec
            refine ⟨pd, raw, rfl, hraw, ?_⟩
            simp only [Bool.not_true, Bool.false_eq_true, if_false] at h
            injection h with h
            rw [← h]
            exact hec2.symm

/-- The per-character replacement of sanitize_filename never produces a
forbidden path character. -/
theorem forbiddenChar_mapFilenameChar (c : Char) :
    forbiddenChar (mapFilenameChar c) = false := by
  cases h : forbiddenChar c with
  | false => simp [mapFilenameChar, h]
  | true => simp only [mapFilenameChar, h, if_true]; decide

/-- Claim C7: for 7z archives the inspection returns the recorded CRC of
the first entry with a data stream that is not a directory and has a
nonzero CRC; for zip archives, of the first non-directory entry with a
nonzero CRC; when no entry qualifies it fails with the corresponding
not-found error. -/
theorem C7_first_qualifying_entry :
    (∀ files : List SevenZEntry,
      get_crc_from_7z (.sevenZ files) =
        match files.find? (fun e => e.has_stream && !e.is_directory && e.crc != 0) with
        | some e => .ok (formatHex8 e.crc)
        | none => .error .noCrcIn7z)
    ∧ (∀ entries : List ZipEntry,
      get_crc_from_zip (.zipArchive entries) =
        match entries.find? (fun e => !e.is_dir && e.crc32 != 0) with
        | some e => .ok (formatHex8 e.crc32)
        | none => .error .noCrcInZip) :=
  ⟨fun files => crcScan7z_eq_find files, fun entries => crcScanZip_eq_find entries⟩

/-- Claim C8 fails as stated: an empty or too-short cleaned title falls
back to `game_<id>`, not to `item_<id>`: on title "ab" and identifier
"42" the code yields "game_42". -/
theorem C8_counterexample :
    sanitize_filename "ab" "42" = "game_42" ∧ sanitize_filename "ab" "42" ≠ "item_42" := by
  constructor
  · decide
  · decide

/-- Claim C8 amended: for every page title the derived payload filename
has forbidden path characters replaced and is capped at 200 characters,
and an empty or too-short cleaned title is replaced with the generic
`game_<id>` name built from the target's identifier. -/
theorem C8_sanitize_characterized (title vault_id : String) :
    (sanitize_filename title vault_id).length ≤ 200
    ∧ (∀ c ∈ (sanitize_filename title vault_id).data, forbiddenChar c = false)
    ∧ (stripTitle title = "" ∨ rustLen (stripTitle title) < 3 →
        sanitize_filename title vault_id =
          String.mk ((("game_" ++ vault_id).data.map mapFilenameChar).take 200)) := by
  refine ⟨?_, ?_, ?_⟩
  · simp only [sanitize_filename, String.length, String.mk, List.length_take]
    omega
  · intro c hc
    simp only [sanitize_filename, String.mk] at hc
    have hc2 := List.take_subset 200 _ hc
    obtain ⟨c', _, hc'⟩ := List.mem_map.mp hc2
    rw [← hc']
    exact forbiddenChar_mapFilenameChar c'
  · intro hshort
    have hcond : (stripTitle title == "" || decide (rustLen (stripTitle title) < 3)) = true := by
      rcases hshort with h | h
      · simp [h]
      · simp [h]
    simp [sanitize_filename, hcond]

/-- Witness for the amended C8 at title "ab", identifier "42". -/
theorem C8_sanitize_characterized_witness :
    (sanitize_filename "ab" "42").length ≤ 200 ∧
    sanitize_filename "ab" "42" =
      String.mk ((("game_" ++ "42").data.map mapFilenameChar).take 200) :=
  ⟨(C8_sanitize_characterized "ab" "42").1,
   (C8_sanitize_characterized "ab" "42").2.2 (Or.inr (by decide))⟩

/-- Claim C10: a successful archive checksum inspection returns exactly
eight lowercase hexadecimal digits, and the expected checksum process_url
compares against is the trimmed, lowercased text of the page's CRC span,
so the equality test is over a normalized representation. -/
theorem C10_normalized_comparison :
    (∀ (fileName : String) (c : ArchiveContent) (s : String),
       WfContent c → get_crc_from_archive fileName c = .ok s →
       s.length = 8 ∧ ∀ ch ∈ s.data, isLowerHexChar ch = true)
    ∧ (∀ (url : String) (net : NetInput) (ri : ReqInfo),
       reqInfo url net = some ri →
       ∃ pd raw, net.page = some pd ∧ pd.crcSpan = some raw ∧
         ri.expected_crc = rustToLower (rustTrim raw)) :=
  ⟨fun fileName c s hw h => get_crc_ok_props fileName c s hw h,
   fun url net ri h => reqInfo_expected_crc url net ri h⟩

/-- A request environment used as concrete input by several witnesses:
a well-formed page, a successful download response carrying a 7z archive
whose first entry has CRC 0x1a2b3c4d. -/
def sampleNet : NetInput :=
  ⟨some ⟨some ("https://vimm.net/dl", "123"), some " 1A2B3C4D ", some "Game (USA)"⟩,
   some ⟨true, some "attachment; filename=\"Game (USA).7z\"",
     .complete (.sevenZ [⟨true, false, 439041101⟩])⟩⟩

/-! ### Phase lemmas for process_url -/

/-- Every process_url call either fails before the existing-file check
(with the filesystem untouched and only network events in the trace), or
reaches the two phases with the derived expected CRC and file name. -/
theorem process_url_shape (url : String) (net : NetInput) (fs : FS) (tm : Bool) :
    (reqInfo url net = none ∧
      ∃ e, process_url url net fs tm = ⟨.err e, fs, [.fetchPage]⟩) ∨
    (reqInfo url net = none ∧
      ∃ e, process_url url net fs tm = ⟨.err e, fs, [.fetchPage, .sendDownloadRequest]⟩) ∨
    (∃ ri resp, reqInfo url net = some ri ∧ net.download = some resp ∧
      process_url url net fs tm =
        match checkExisting ri.actual_filename ri.expected_crc fs
            [.fetchPage, .sendDownloadRequest] tm with
        | .done r => r
        | .proceed fs1 tr1 =>
          downloadAndVerify ri.actual_filename ri.expected_crc resp.body fs1 tr1 tm) := by
  cases hpage : net.page with
  | none => exact Or.inl ⟨by simp [reqInfo, hpage], .pageFetchFailed, by simp [process_url, hpage]⟩
  | some pd =>
    cases hform : pd.form with
    | none =>
      exact Or.inl ⟨by simp [reqInfo, hpage, hform], .noDownloadForm,
        by simp [process_url, hpage, hform]⟩
    | some f =>
      cases hec : extract_hash pd.crcSpan with
      | none =>
        exact Or.inl ⟨by simp [reqInfo, hpage, hform, hec], .noCrcOnPage,
          by simp [process_url, hpage, hform, hec]⟩
      | some ec =>
        cases hdl : net.download with
        | none =>
          exact Or.inr (Or.inl ⟨by simp [reqInfo, hpage, hform, hec, hdl],
            .downloadSendFailed, by simp [process_url, hpage, hform, hec, hdl]⟩)
        | some resp =>
          cases hst : resp.statusOk with
          | false =>
            exact Or.inr (Or.inl ⟨by simp [reqInfo, hpage, hform, hec, hdl, hst],
              .httpStatus, by simp [process_url, hpage, hform, hec, hdl, hst]⟩)
          | true =>
            refine Or.inr (Or.inr ⟨⟨ec, dispositionFilename resp.contentDisposition
              (sanitize_filename (pd.titleText.getD "download") (vaultIdOf url))⟩, resp,
              ?_, rfl, ?_⟩)
            · simp [reqInfo, hpage, hform, hec, hdl, hst]
            · simp [process_url, hpage, hform, hec, hdl, hst]


/-- Inversion of the existing-file check when it returns early. -/
theorem checkExisting_done_inv (a e : String) (fs : FS) (tr : List Ev) (tm : Bool)
    (r : RunResult) (h : checkExisting a e fs tr tm = .done r) :
    ∃ c, fs.final = some c ∧ r.fs = fs ∧ r.trace = tr ++ [.inspectCrc .finalPath] ∧
      ((r.outcome = .ok false ∧ get_crc_from_archive a c = .ok e) ∨
       (r.outcome = .panicked .mismatchExisting ∧ tm = true) ∨
       (r.outcome = .panicked .crcReadExisting ∧ tm = true)) := by
  unfold checkExisting at h
  cases hf : fs.final with
  | none => rw [hf] at h; exact absurd h (by simp)
  | some c =>
    rw [hf] at h
    refine ⟨c, rfl, ?_⟩
    cases hcrc : get_crc_from_archive a c with
    | ok crc =>
      simp only [hcrc] at h
      by_cases hmatch : (crc == e) = true
      · simp only [hmatch, if_true] at h
        injection h with h
        subst h
        exact ⟨rfl, rfl, Or.inl ⟨rfl, by rw [eq_of_beq hmatch]⟩⟩
      · simp only [hmatch] at h
        cases htm : tm with
        | false => rw [htm] at h; simp at h
        | true =>
          rw [htm] at h
          simp only [if_true] at h
          injection h with h
          subst h
          exact ⟨rfl, rfl, Or.inr (Or.inl ⟨rfl, rfl⟩)⟩
    | error er =>
      simp only [hcrc] at h
      cases htm : tm with
      | false => rw [htm] at h; simp at h
      | true =>
        rw [htm] at h
        simp only [if_true] at h
        injection h with h
        subst h
        exact ⟨rfl, rfl, Or.inr (Or.inr ⟨rfl, rfl⟩)⟩

/-- Inversion of the existing-file check when the download proceeds. -/
theorem checkExisting_proceed_inv (a e : String) (fs : FS) (tr : List Ev) (tm : Bool)
    (fs1 : FS) (tr1 : List Ev) (h : checkExisting a e fs tr tm = .proceed fs1 tr1) :
    (fs.final = none ∧ fs1 = fs ∧ tr1 = tr) ∨
    (∃ c, fs.final = some c ∧ tm = false ∧ fs1 = ⟨none, fs.pending⟩ ∧
      tr1 = tr ++ [.inspectCrc .finalPath, .removeFile .finalPath] ∧
      get_crc_from_archive a c ≠ .ok e) := by
  unfold checkExisting at h
  cases hf : fs.final with
  | none =>
    rw [hf] at h
    injection h with h1 h2
    exact Or.inl ⟨rfl, h1.symm, h2.symm⟩
  | some c =>
    rw [hf] at h
    refine Or.inr ⟨c, rfl, ?_⟩
    cases hcrc : get_crc_from_archive a c with
    | ok crc =>
      simp only [hcrc] at h
      by_cases hmatch : (crc == e) = true
      · simp [hmatch] at h
      · simp only [hmatch] at h
        cases htm : tm with
        | true => rw [htm] at h; simp at h
        | false =>
          rw [htm] at h
          simp only [if_false, Bool.false_eq_true] at h
          injection h with h1 h2
          refine ⟨rfl, h1.symm, by rw [← h2]; simp, ?_⟩
          intro hco
          injection hco with hco
          exact hmatch (by rw [hco]; exact beq_self_eq_true e)
    | error er =>
      simp only [hcrc] at h
      cases htm : tm with
      | true => rw [htm] at h; simp at h
      | false =>
        rw [htm] at h
        simp only [if_false, Bool.false_eq_true] at h
        injection h with h1 h2
        exact ⟨rfl, h1.symm, by rw [← h2]; simp, by simp⟩

/-- The download phase on a mid-stream read error: the error is returned
with the partial `.pending` file still on disk. -/
theorem downloadAndVerify_midstream (a e : String) (fs : FS) (tr : List Ev) (tm : Bool) :
    downloadAndVerify a e .midStreamError fs tr tm =
      ⟨.err .midStreamRead, ⟨fs.final, some .incomplete⟩, tr ++ [.createPending, .streamBody]⟩ := rfl

/-- The three possible event suffixes of the download phase. -/
theorem downloadAndVerify_trace_shape (a e : String) (body : BodyResult) (fs : FS)
    (tr : List Ev) (tm : Bool) :
    (downloadAndVerify a e body fs tr tm).trace = tr ++ [.createPending, .streamBody] ∨
    (downloadAndVerify a e body fs tr tm).trace =
      tr ++ [.createPending, .streamBody, .renamePendingToFinal, .inspectCrc .finalPath] ∨
    (downloadAndVerify a e body fs tr tm).trace =
      tr ++ [.createPending, .streamBody, .renamePendingToFinal, .inspectCrc .finalPath,
             .removeFile .finalPath] := by
  unfold downloadAndVerify
  cases body with
  | midStreamError => exact Or.inl rfl
  | complete content =>
    cases hcrc : get_crc_from_archive a content with
    | error er => simp [hcrc]
    | ok crc =>
      simp only [hcrc]
      by_cases hmatch : (crc == e) = true
      · simp [hmatch]
      · simp only [hmatch, Bool.false_eq_true, if_false]
        cases tm with
        | true => simp
        | false => simp

/-- When the download phase performs the rename, the whole response body
was consumed successfully. -/
theorem downloadAndVerify_rename_body (a e : String) (body : BodyResult) (fs : FS)
    (tr : List Ev) (tm : Bool)
    (h : Ev.renamePendingToFinal ∈ (downloadAndVerify a e body fs tr tm).trace)
    (h2 : Ev.renamePendingToFinal ∉ tr) :
    ∃ content, body = .complete content := by
  cases body with
  | complete content => exact ⟨content, rfl⟩
  | midStreamError =>
    rw [downloadAndVerify_midstream] at h
    rcases List.mem_append.mp h with hmem | hmem
    · exact absurd hmem h2
    · simp at hmem

/-- Inversion of a successful (`Ok(true)`) download phase: the body was
fully streamed, the published archive's recorded CRC equals the expected
CRC, and the final filesystem state holds exactly the streamed content. -/
theorem downloadAndVerify_ok_true_inv (a e : String) (body : BodyResult) (fs : FS)
    (tr : List Ev) (tm : Bool)
    (h : (downloadAndVerify a e body fs tr tm).outcome = .ok true) :
    ∃ content, body = .complete content ∧
      get_crc_from_archive a content = .ok e ∧
      (downloadAndVerify a e body fs tr tm).fs = ⟨some content, none⟩ := by
  cases body with
  | midStreamError => rw [downloadAndVerify_midstream] at h; simp at h
  | complete content =>
    refine ⟨content, rfl, ?_⟩
    unfold downloadAndVerify at h
    cases hcrc : get_crc_from_archive a content with
    | error er => simp [hcrc] at h
    | ok crc =>
      simp only [hcrc] at h
      by_cases hmatch : (crc == e) = true
      · have he : crc = e := eq_of_beq hmatch
        subst he
        exact ⟨rfl, by simp [downloadAndVerify, hcrc]⟩
      · simp only [hmatch, Bool.false_eq_true, if_false] at h
        cases tm with
        | true => simp at h
        | false => simp at h

/-- The download phase never panics outside test mode. -/
theorem downloadAndVerify_no_panic (a e : String) (body : BodyResult) (fs : FS)
    (tr : List Ev) (p : PanicKind) :
    (downloadAndVerify a e body fs tr false).outcome ≠ .panicked p := by
  unfold downloadAndVerify
  cases body with
  | midStreamError => simp
  | complete content =>
    cases hcrc : get_crc_from_archive a content with
    | error er => simp [hcrc]
    | ok crc =>
      simp only [hcrc]
      by_cases hmatch : (crc == e) = true
      · simp [hmatch]
      · simp [hmatch]

/-- The download phase after a fully streamed body whose CRC cannot be
read (e.g. an unsupported extension): the error is surfaced distinctly
and the downloaded file is kept. -/
theorem downloadAndVerify_crc_error (a e : String) (content : ArchiveContent) (fs : FS)
    (tr : List Ev) (tm : Bool) (er : CrcError)
    (hcrc : get_crc_from_archive a content = .error er) :
    downloadAndVerify a e (.complete content) fs tr tm =
      ⟨.err (.crcReadAfterDownload er), ⟨some content, none⟩,
        tr ++ [.createPending, .streamBody, .renamePendingToFinal, .inspectCrc .finalPath]⟩ := by
  unfold downloadAndVerify
  simp [hcrc]

/-- The existing-file check when no file exists at the final path. -/
theorem checkExisting_none (a e : String) (fs : FS) (tr : List Ev) (tm : Bool)
    (hf : fs.final = none) : checkExisting a e fs tr tm = .proceed fs tr := by
  unfold checkExisting; rw [hf]

/-- The existing-file check on a matching archive: `Ok(false)`, nothing
touched. -/
theorem checkExisting_match (a e : String) (fs : FS) (tr : List Ev) (tm : Bool)
    (c : ArchiveContent) (hf : fs.final = some c)
    (hcrc : get_crc_from_archive a c = .ok e) :
    checkExisting a e fs tr tm = .done ⟨.ok false, fs, tr ++ [.inspectCrc .finalPath]⟩ := by
  unfold checkExisting; rw [hf]; simp [hcrc]

/-- The existing-file check on a CRC mismatch outside test mode: the file
is removed and the download proceeds. -/
theorem checkExisting_mismatch_delete (a e : String) (fs : FS) (tr : List Ev)
    (c : ArchiveContent) (crc : String) (hf : fs.final = some c)
    (hcrc : get_crc_from_archive a c = .ok crc) (hne : crc ≠ e) :
    checkExisting a e fs tr false =
      .proceed ⟨none, fs.pending⟩
        (tr ++ [.inspectCrc .finalPath, .removeFile .finalPath]) := by
  unfold checkExisting; rw [hf]; simp [hcrc, hne]

/-- The existing-file check on a CRC mismatch in test mode: panic, file
kept. -/
theorem checkExisting_mismatch_panic (a e : String) (fs : FS) (tr : List Ev)
    (c : ArchiveContent) (crc : String) (hf : fs.final = some c)
    (hcrc : get_crc_from_archive a c = .ok crc) (hne : crc ≠ e) :
    checkExisting a e fs tr true =
      .done ⟨.panicked .mismatchExisting, fs, tr ++ [.inspectCrc .finalPath]⟩ := by
  unfold checkExisting; rw [hf]; simp [hcrc, hne]

/-- The existing-file check on an unreadable CRC outside test mode
(covers corrupt archives and unsupported extensions alike): the file is
removed and the download proceeds. -/
theorem checkExisting_error_delete (a e : String) (fs : FS) (tr : List Ev)
    (c : ArchiveContent) (er : CrcError) (hf : fs.final = some c)
    (hcrc : get_crc_from_archive a c = .error er) :
    checkExisting a e fs tr false =
      .proceed ⟨none, fs.pending⟩
        (tr ++ [.inspectCrc .finalPath, .removeFile .finalPath]) := by
  unfold checkExisting; rw [hf]; simp [hcrc]

/-- The existing-file check on an unreadable CRC in test mode: panic,
file kept. -/
theorem checkExisting_error_panic (a e : String) (fs : FS) (tr : List Ev)
    (c : ArchiveContent) (er : CrcError) (hf : fs.final = some c)
    (hcrc : get_crc_from_archive a c = .error er) :
    checkExisting a e fs tr true =
      .done ⟨.panicked .crcReadExisting, fs, tr ++ [.inspectCrc .finalPath]⟩ := by
  unfold checkExisting; rw [hf]; simp [hcrc]

/-- Claim C4: no code path treats the `.pending` staging file as a
complete archive: CRC inspection only ever happens on the final path;
the rename to the final name occurs only in runs whose response body was
consumed completely; and the rename event always comes after the body
stream event. -/
theorem C4_crash_safety (url : String) (net : NetInput) (fs : FS) (tm : Bool) :
    (∀ p, Ev.inspectCrc p ∈ (process_url url net fs tm).trace → p = .finalPath)
    ∧ (Ev.renamePendingToFinal ∈ (process_url url net fs tm).trace →
        ∃ resp content, net.download = some resp ∧ resp.body = .complete content)
    ∧ (Ev.renamePendingToFinal ∈ (process_url url net fs tm).trace →
        (process_url url net fs tm).trace.indexOf Ev.streamBody <
          (process_url url net fs tm).trace.indexOf Ev.renamePendingToFinal) := by
  rcases process_url_shape url net fs tm with ⟨_, e, heq⟩ | ⟨_, e, heq⟩ | ⟨ri, resp, hri, hdl, heq⟩
  · rw [heq]
    refine ⟨?_, ?_, ?_⟩
    · intro p hp; simp at hp
    · intro hp; simp at hp
    · intro hp; simp at hp
  · rw [heq]
    refine ⟨?_, ?_, ?_⟩
    · intro p hp; simp at hp
    · intro hp; simp at hp
    · intro hp; simp at hp
  · cases hck : checkExisting ri.actual_filename ri.expected_crc fs
        [.fetchPage, .sendDownloadRequest] tm with
    | done r =>
      rw [heq]; simp only [hck]
      obtain ⟨c, hc, hrfs, hrtr, hout⟩ := checkExisting_done_inv _ _ _ _ _ _ hck
      rw [hrtr]
      refine ⟨?_, ?_, ?_⟩
      · intro p hp; simp at hp; exact hp
      · intro hp; simp at hp
      · intro hp; simp at hp
    | proceed fs1 tr1 =>
      rw [heq]; simp only [hck]
      have hnr : Ev.renamePendingToFinal ∉ tr1 := by
        rcases checkExisting_proceed_inv _ _ _ _ _ _ _ hck with ⟨_, _, htr1⟩ | ⟨c, _, _, _, htr1, _⟩ <;>
          rw [htr1] <;> decide
      refine ⟨?_, ?_, ?_⟩
      · intro p hp
        rcases checkExisting_proceed_inv _ _ _ _ _ _ _ hck with ⟨_, _, htr1⟩ | ⟨c, _, _, _, htr1, _⟩ <;>
          rcases downloadAndVerify_trace_shape ri.actual_filename ri.expected_crc resp.body fs1 tr1 tm
            with ht | ht | ht <;>
          rw [ht, htr1] at hp <;> simp at hp <;> exact hp
      · intro hp
        obtain ⟨content, hb⟩ :=
          downloadAndVerify_rename_body ri.actual_filename ri.expected_crc resp.body fs1 tr1 tm hp hnr
        exact ⟨resp, content, hdl, hb⟩
      · intro hp
        rcases checkExisting_proceed_inv _ _ _ _ _ _ _ hck with ⟨_, _, htr1⟩ | ⟨c, _, _, _, htr1, _⟩ <;>
          rcases downloadAndVerify_trace_shape ri.actual_filename ri.expected_crc resp.body fs1 tr1 tm
            with ht | ht | ht <;>
          rw [ht, htr1] at hp ⊢ <;> decide

/-- A request environment whose page expects CRC cafef00d (used to
exercise mismatch paths against a deadbeef archive on disk). -/
def sampleNetCafe : NetInput :=
  ⟨some ⟨some ("https://vimm.net/dl", "123"), some "cafef00d", some "Game (USA)"⟩,
   some ⟨true, some "attachment; filename=\"Game (USA).7z\"",
     .complete (.sevenZ [⟨true, false, 3405705229⟩])⟩⟩

/-- An on-disk 7z archive whose first entry records CRC deadbeef. -/
def deadbeefArchive : ArchiveContent :=
  .sevenZ [⟨true, false, 3735928559⟩]

/-- Witness for C4 at a concrete full download. -/
theorem C4_crash_safety_witness :
    (process_url "https://vimm.net/vault/123" sampleNet ⟨none, none⟩ false).trace.indexOf
        Ev.streamBody <
      (process_url "https://vimm.net/vault/123" sampleNet ⟨none, none⟩ false).trace.indexOf
        Ev.renamePendingToFinal :=
  (C4_crash_safety "https://vimm.net/vault/123" sampleNet ⟨none, none⟩ false).2.2 (by decide)

/-- Claim C1 fails as stated: with an unverified (mismatching) archive on
disk the Controller goes on to download without ever having attempted an
extraction — the program contains no extraction step at all. -/
theorem C1_counterexample :
    Ev.createPending ∈
      (process_url "https://vimm.net/vault/123" sampleNetCafe
        ⟨some deadbeefArchive, none⟩ false).trace
    ∧ Ev.extract ∉
      (process_url "https://vimm.net/vault/123" sampleNetCafe
        ⟨some deadbeefArchive, none⟩ false).trace := by
  constructor
  · decide
  · decide

/-- Claim C1 amended: the program never extracts an archive (the
downloaded archive itself is the final artifact, verified through its
recorded CRC metadata); what holds of the resumption order is that when
an archive artifact exists on disk, its checksum inspection happens
before the staging file of any download is created. -/
theorem C1_no_extraction (url : String) (net : NetInput) (fs : FS) (tm : Bool) :
    Ev.extract ∉ (process_url url net fs tm).trace
    ∧ (∀ c, fs.final = some c → Ev.createPending ∈ (process_url url net fs tm).trace →
        (process_url url net fs tm).trace.indexOf (Ev.inspectCrc .finalPath) <
          (process_url url net fs tm).trace.indexOf Ev.createPending) := by
  rcases process_url_shape url net fs tm with ⟨_, e, heq⟩ | ⟨_, e, heq⟩ | ⟨ri, resp, hri, hdl, heq⟩
  · rw [heq]
    exact ⟨by simp, fun c _ hp => by simp at hp⟩
  · rw [heq]
    exact ⟨by simp, fun c _ hp => by simp at hp⟩
  · cases hck : checkExisting ri.actual_filename ri.expected_crc fs
        [.fetchPage, .sendDownloadRequest] tm with
    | done r =>
      rw [heq]; simp only [hck]
      obtain ⟨c, hc, hrfs, hrtr, hout⟩ := checkExisting_done_inv _ _ _ _ _ _ hck
      rw [hrtr]
      exact ⟨by simp, fun c' _ hp => by simp at hp⟩
    | proceed fs1 tr1 =>
      rw [heq]; simp only [hck]
      rcases checkExisting_proceed_inv _ _ _ _ _ _ _ hck with ⟨hfn, _, htr1⟩ | ⟨c, hfc, _, _, htr1, _⟩
      · constructor
        · rcases downloadAndVerify_trace_shape ri.actual_filename ri.expected_crc resp.body fs1 tr1 tm
            with ht | ht | ht <;> rw [ht, htr1] <;> decide
        · intro c' hc' _
          rw [hfn] at hc'
          exact absurd hc' (by simp)
      · constructor
        · rcases downloadAndVerify_trace_shape ri.actual_filename ri.expected_crc resp.body fs1 tr1 tm
            with ht | ht | ht <;> rw [ht, htr1] <;> decide
        · intro c' _ hp
          rcases downloadAndVerify_trace_shape ri.actual_filename ri.expected_crc resp.body fs1 tr1 tm
            with ht | ht | ht <;> rw [ht, htr1] at hp ⊢ <;> decide

/-- Witness for the amended C1: the mismatch run inspects the existing
archive before creating the staging file. -/
theorem C1_no_extraction_witness :
    (process_url "https://vimm.net/vault/123" sampleNetCafe
        ⟨some deadbeefArchive, none⟩ false).trace.indexOf (Ev.inspectCrc .finalPath) <
      (process_url "https://vimm.net/vault/123" sampleNetCafe
        ⟨some deadbeefArchive, none⟩ false).trace.indexOf Ev.createPending :=
  (C1_no_extraction "https://vimm.net/vault/123" sampleNetCafe
    ⟨some deadbeefArchive, none⟩ false).2 deadbeefArchive rfl (by decide)

/-- Claim C9: main always calls process_url with the diagnostic
(test-mode) flag hardwired to false, so no run can reach a panic site,
and an existing archive whose inspection does not yield the expected CRC
(mismatch or unreadable alike) is always removed. -/
theorem C9_diagnostic_mode_off :
    test_mode = false
    ∧ (∀ (url : String) (net : NetInput) (fs : FS) (p : PanicKind),
        (process_url url net fs test_mode).outcome ≠ .panicked p)
    ∧ (∀ (url : String) (net : NetInput) (fs : FS) (ri : ReqInfo) (c : ArchiveContent),
        reqInfo url net = some ri → fs.final = some c →
        get_crc_from_archive ri.actual_filename c ≠ .ok ri.expected_crc →
        Ev.removeFile .finalPath ∈ (process_url url net fs test_mode).trace) := by
  refine ⟨rfl, ?_, ?_⟩
  · intro url net fs p
    rcases process_url_shape url net fs test_mode with
      ⟨_, e, heq⟩ | ⟨_, e, heq⟩ | ⟨ri, resp, hri, hdl, heq⟩
    · rw [heq]; simp
    · rw [heq]; simp
    · cases hck : checkExisting ri.actual_filename ri.expected_crc fs
          [.fetchPage, .sendDownloadRequest] test_mode with
      | done r =>
        rw [heq]; simp only [hck]
        obtain ⟨c, _, _, _, hout⟩ := checkExisting_done_inv _ _ _ _ _ _ hck
        rcases hout with ⟨ho, _⟩ | ⟨_, htm⟩ | ⟨_, htm⟩
        · rw [ho]; simp
        · exact absurd htm (by decide)
        · exact absurd htm (by decide)
      | proceed fs1 tr1 =>
        rw [heq]; simp only [hck]
        exact downloadAndVerify_no_panic _ _ _ _ _ p
  · intro url net fs ri c hri hc hne
    rcases process_url_shape url net fs test_mode with
      ⟨hnone, _⟩ | ⟨hnone, _⟩ | ⟨ri', resp, hri', hdl, heq⟩
    · rw [hri] at hnone; exact absurd hnone (by simp)
    · rw [hri] at hnone; exact absurd hnone (by simp)
    · have hrr : ri' = ri := by rw [hri] at hri'; exact (Option.some.inj hri').symm
      subst hrr
      cases hck : checkExisting ri'.actual_filename ri'.expected_crc fs
          [.fetchPage, .sendDownloadRequest] test_mode with
      | done r =>
        obtain ⟨c', hc', _, _, hout⟩ := checkExisting_done_inv _ _ _ _ _ _ hck
        have hcc : c' = c := by rw [hc] at hc'; exact (Option.some.inj hc').symm
        subst hcc
        rcases hout with ⟨_, hok⟩ | ⟨_, htm⟩ | ⟨_, htm⟩
        · exact absurd hok hne
        · exact absurd htm (by decide)
        · exact absurd htm (by decide)
      | proceed fs1 tr1 =>
        rw [heq]; simp only [hck]
        rcases checkExisting_proceed_inv _ _ _ _ _ _ _ hck with
          ⟨hfn, _, _⟩ | ⟨c'', _, _, _, htr1, _⟩
        · rw [hc] at hfn; exact absurd hfn (by simp)
        · rcases downloadAndVerify_trace_shape ri'.actual_filename ri'.expected_crc resp.body
            fs1 tr1 test_mode with ht | ht | ht <;> rw [ht, htr1] <;> decide

/-- Witness for C9 at concrete runs: a clean full download does not
panic, and a mismatching existing archive is removed. -/
theorem C9_diagnostic_mode_off_witness :
    test_mode = false
    ∧ (process_url "https://vimm.net/vault/123" sampleNet ⟨none, none⟩
        test_mode).outcome ≠ .panicked .mismatchExisting
    ∧ Ev.removeFile .finalPath ∈ (process_url "https://vimm.net/vault/123" sampleNetCafe
        ⟨some deadbeefArchive, none⟩ test_mode).trace :=
  ⟨C9_diagnostic_mode_off.1,
   C9_diagnostic_mode_off.2.1 "https://vimm.net/vault/123" sampleNet ⟨none, none⟩ .mismatchExisting,
   C9_diagnostic_mode_off.2.2 "https://vimm.net/vault/123" sampleNetCafe
     ⟨some deadbeefArchive, none⟩ ⟨"cafef00d", "Game (USA).7z"⟩ deadbeefArchive
     (by decide) rfl (by decide)⟩

/-- Claim C5: when the CRC of an existing on-disk artifact disagrees
with the expected CRC, non-diagnostic mode deletes the artifact and then
starts the download of the same target (the removal strictly precedes
the staging-file creation), while diagnostic mode panics without
touching the artifact and without downloading. -/
theorem C5_mismatch_self_healing
    (url : String) (net : NetInput) (fs : FS) (ri : ReqInfo) (resp : DownloadResponse)
    (c : ArchiveContent) (crc : String)
    (hri : reqInfo url net = some ri) (_hdl : net.download = some resp)
    (hf : fs.final = some c)
    (hcrc : get_crc_from_archive ri.actual_filename c = .ok crc)
    (hne : crc ≠ ri.expected_crc) :
    (Ev.removeFile .finalPath ∈ (process_url url net fs false).trace
      ∧ Ev.createPending ∈ (process_url url net fs false).trace
      ∧ (process_url url net fs false).trace.indexOf (Ev.removeFile .finalPath) <
          (process_url url net fs false).trace.indexOf Ev.createPending)
    ∧ ((process_url url net fs true).outcome = .panicked .mismatchExisting
      ∧ (process_url url net fs true).fs = fs
      ∧ Ev.removeFile .finalPath ∉ (process_url url net fs true).trace) := by
  constructor
  · rcases process_url_shape url net fs false with
      ⟨hnone, _⟩ | ⟨hnone, _⟩ | ⟨ri', resp', hri', hdl', heq⟩
    · rw [hri] at hnone; exact absurd hnone (by simp)
    · rw [hri] at hnone; exact absurd hnone (by simp)
    · have hrr : ri' = ri := by rw [hri] at hri'; exact (Option.some.inj hri').symm
      subst hrr
      rw [heq, checkExisting_mismatch_delete ri'.actual_filename ri'.expected_crc fs _ c crc hf hcrc hne]
      rcases downloadAndVerify_trace_shape ri'.actual_filename ri'.expected_crc resp'.body
          ⟨none, fs.pending⟩ ([Ev.fetchPage, Ev.sendDownloadRequest] ++
            [Ev.inspectCrc .finalPath, Ev.removeFile .finalPath]) false with ht | ht | ht <;>
        refine ⟨?_, ?_, ?_⟩ <;> rw [ht] <;> decide
  · rcases process_url_shape url net fs true with
      ⟨hnone, _⟩ | ⟨hnone, _⟩ | ⟨ri', resp', hri', hdl', heq⟩
    · rw [hri] at hnone; exact absurd hnone (by simp)
    · rw [hri] at hnone; exact absurd hnone (by simp)
    · have hrr : ri' = ri := by rw [hri] at hri'; exact (Option.some.inj hri').symm
      subst hrr
      rw [heq, checkExisting_mismatch_panic ri'.actual_filename ri'.expected_crc fs _ c crc hf hcrc hne]
      exact ⟨rfl, rfl, by simp⟩

/-- Witness for C5 at the spec's own example: on-disk CRC deadbeef,
expected CRC cafef00d. -/
theorem C5_mismatch_self_healing_witness :
    (Ev.removeFile .finalPath ∈ (process_url "https://vimm.net/vault/123" sampleNetCafe
        ⟨some deadbeefArchive, none⟩ false).trace
      ∧ Ev.createPending ∈ (process_url "https://vimm.net/vault/123" sampleNetCafe
        ⟨some deadbeefArchive, none⟩ false).trace
      ∧ (process_url "https://vimm.net/vault/123" sampleNetCafe
          ⟨some deadbeefArchive, none⟩ false).trace.indexOf (Ev.removeFile .finalPath) <
          (process_url "https://vimm.net/vault/123" sampleNetCafe
          ⟨some deadbeefArchive, none⟩ false).trace.indexOf Ev.createPending)
    ∧ ((process_url "https://vimm.net/vault/123" sampleNetCafe
          ⟨some deadbeefArchive, none⟩ true).outcome = .panicked .mismatchExisting
      ∧ (process_url "https://vimm.net/vault/123" sampleNetCafe
          ⟨some deadbeefArchive, none⟩ true).fs = ⟨some deadbeefArchive, none⟩
      ∧ Ev.removeFile .finalPath ∉ (process_url "https://vimm.net/vault/123" sampleNetCafe
          ⟨some deadbeefArchive, none⟩ true).trace) :=
  C5_mismatch_self_healing "https://vimm.net/vault/123" sampleNetCafe
    ⟨some deadbeefArchive, none⟩ ⟨"cafef00d", "Game (USA).7z"⟩
    ⟨true, some "attachment; filename=\"Game (USA).7z\"",
      .complete (.sevenZ [⟨true, false, 3405705229⟩])⟩
    deadbeefArchive "deadbeef" (by decide) (by decide) rfl (by decide) (by decide)

/-- A request environment whose content-disposition supplies a `.rar`
file name, so that every CRC inspection reports an unsupported format. -/
def sampleNetRar : NetInput :=
  ⟨some ⟨some ("https://vimm.net/dl", "123"), some " 1A2B3C4D ", some "Game (USA)"⟩,
   some ⟨true, some "attachment; filename=\"Game (USA).rar\"",
     .complete (.sevenZ [⟨true, false, 439041101⟩])⟩⟩

/-- Claim C6 fails as stated: an existing archive whose inspection
reports UnsupportedFormat is deleted and re-downloaded, exactly like any
other inspection failure. -/
theorem C6_counterexample :
    get_crc_from_archive "Game (USA).rar" (.sevenZ [⟨true, false, 439041101⟩]) =
      .error (.unsupportedFormat "rar")
    ∧ Ev.removeFile .finalPath ∈ (process_url "https://vimm.net/vault/123" sampleNetRar
        ⟨some (.sevenZ [⟨true, false, 439041101⟩]), none⟩ false).trace
    ∧ Ev.createPending ∈ (process_url "https://vimm.net/vault/123" sampleNetRar
        ⟨some (.sevenZ [⟨true, false, 439041101⟩]), none⟩ false).trace := by
  refine ⟨by decide, by decide, by decide⟩

/-- Claim C6 amended: an UnsupportedFormat report on an existing archive
is handled like every other inspection error — non-diagnostic mode
deletes the file and re-downloads, diagnostic mode panics. Only when the
report concerns a freshly downloaded archive is it surfaced distinctly
as a fatal error for that target, keeping the file on disk. -/
theorem C6_unsupported_format :
    (∀ (url : String) (net : NetInput) (fs : FS) (ri : ReqInfo) (resp : DownloadResponse)
       (c : ArchiveContent) (ext : String),
      reqInfo url net = some ri → net.download = some resp → fs.final = some c →
      get_crc_from_archive ri.actual_filename c = .error (.unsupportedFormat ext) →
      (Ev.removeFile .finalPath ∈ (process_url url net fs false).trace
        ∧ Ev.createPending ∈ (process_url url net fs false).trace)
      ∧ (process_url url net fs true).outcome = .panicked .crcReadExisting)
    ∧ (∀ (url : String) (net : NetInput) (fs : FS) (ri : ReqInfo) (resp : DownloadResponse)
       (content : ArchiveContent) (ext : String),
      reqInfo url net = some ri → net.download = some resp → fs.final = none →
      resp.body = .complete content →
      get_crc_from_archive ri.actual_filename content = .error (.unsupportedFormat ext) →
      (process_url url net fs false).outcome =
        .err (.crcReadAfterDownload (.unsupportedFormat ext))
      ∧ (process_url url net fs false).fs.final = some content) := by
  constructor
  · intro url net fs ri resp c ext hri hdl hf hcrc
    constructor
    · rcases process_url_shape url net fs false with
        ⟨hnone, _⟩ | ⟨hnone, _⟩ | ⟨ri', resp', hri', hdl', heq⟩
      · rw [hri] at hnone; exact absurd hnone (by simp)
      · rw [hri] at hnone; exact absurd hnone (by simp)
      · have hrr : ri' = ri := by rw [hri] at hri'; exact (Option.some.inj hri').symm
        subst hrr
        rw [heq, checkExisting_error_delete ri'.actual_filename ri'.expected_crc fs _ c _ hf hcrc]
        rcases downloadAndVerify_trace_shape ri'.actual_filename ri'.expected_crc resp'.body
            ⟨none, fs.pending⟩ ([Ev.fetchPage, Ev.sendDownloadRequest] ++
              [Ev.inspectCrc .finalPath, Ev.removeFile .finalPath]) false with ht | ht | ht <;>
          constructor <;> rw [ht] <;> decide
    · rcases process_url_shape url net fs true with
        ⟨hnone, _⟩ | ⟨hnone, _⟩ | ⟨ri', resp', hri', hdl', heq⟩
      · rw [hri] at hnone; exact absurd hnone (by simp)
      · rw [hri] at hnone; exact absurd hnone (by simp)
      · have hrr : ri' = ri := by rw [hri] at hri'; exact (Option.some.inj hri').symm
        subst hrr
        rw [heq, checkExisting_error_panic ri'.actual_filename ri'.expected_crc fs _ c _ hf hcrc]
  · intro url net fs ri resp content ext hri hdl hf hbody hcrc
    rcases process_url_shape url net fs false with
      ⟨hnone, _⟩ | ⟨hnone, _⟩ | ⟨ri', resp', hri', hdl', heq⟩
    · rw [hri] at hnone; exact absurd hnone (by simp)
    · rw [hri] at hnone; exact absurd hnone (by simp)
    · have hrr : ri' = ri := by rw [hri] at hri'; exact (Option.some.inj hri').symm
      subst hrr
      have hresp : resp' = resp := by rw [hdl] at hdl'; exact (Option.some.inj hdl'.symm)
      subst hresp
      rw [heq, checkExisting_none ri'.actual_filename ri'.expected_crc fs _ false hf, hbody]
      dsimp only
      rw [downloadAndVerify_crc_error ri'.actual_filename ri'.expected_crc content fs _
          false _ hcrc]
      exact ⟨rfl, rfl⟩

/-- Witness for the amended C6: the `.rar` runs with and without an
existing archive. -/
theorem C6_unsupported_format_witness :
    ((Ev.removeFile .finalPath ∈ (process_url "https://vimm.net/vault/123" sampleNetRar
        ⟨some deadbeefArchive, none⟩ false).trace
      ∧ Ev.createPending ∈ (process_url "https://vimm.net/vault/123" sampleNetRar
        ⟨some deadbeefArchive, none⟩ false).trace)
     ∧ (process_url "https://vimm.net/vault/123" sampleNetRar
        ⟨some deadbeefArchive, none⟩ true).outcome = .panicked .crcReadExisting)
    ∧ ((process_url "https://vimm.net/vault/123" sampleNetRar ⟨none, none⟩ false).outcome =
        .err (.crcReadAfterDownload (.unsupportedFormat "rar"))
      ∧ (process_url "https://vimm.net/vault/123" sampleNetRar ⟨none, none⟩ false).fs.final =
        some (.sevenZ [⟨true, false, 439041101⟩])) :=
  ⟨C6_unsupported_format.1 "https://vimm.net/vault/123" sampleNetRar
      ⟨some deadbeefArchive, none⟩ ⟨"1a2b3c4d", "Game (USA).rar"⟩
      ⟨true, some "attachment; filename=\"Game (USA).rar\"",
        .complete (.sevenZ [⟨true, false, 439041101⟩])⟩
      deadbeefArchive "rar" (by decide) (by decide) rfl (by decide),
   C6_unsupported_format.2 "https://vimm.net/vault/123" sampleNetRar
      ⟨none, none⟩ ⟨"1a2b3c4d", "Game (USA).rar"⟩
      ⟨true, some "attachment; filename=\"Game (USA).rar\"",
        .complete (.sevenZ [⟨true, false, 439041101⟩])⟩
      (.sevenZ [⟨true, false, 439041101⟩]) "rar"
      (by decide) (by decide) rfl (by decide) (by decide)⟩

/-- Claim C2 fails as stated: the second run on a satisfied target does
return the no-download result, but it still performs two network
requests (the page fetch and the download request are both sent before
the existing file is checked). -/
theorem C2_counterexample :
    (process_url "https://vimm.net/vault/123" sampleNet
        (process_url "https://vimm.net/vault/123" sampleNet ⟨none, none⟩ false).fs
        false).outcome = .ok false
    ∧ countNetworkRequests (process_url "https://vimm.net/vault/123" sampleNet
        (process_url "https://vimm.net/vault/123" sampleNet ⟨none, none⟩ false).fs
        false).trace ≠ 0 := by
  refine ⟨by decide, by decide⟩

/-- Claim C2 amended: after a successful first run, a second run on the
same target (same derived expected CRC and file name) returns the
no-download result `Ok(false)` and never creates a staging file or
streams a body, but it still performs exactly two network requests. -/
theorem C2_second_run (url url2 : String) (net net2 : NetInput) (fs0 : FS) (ri : ReqInfo)
    (h1 : (process_url url net fs0 false).outcome = .ok true)
    (hr1 : reqInfo url net = some ri)
    (hr2 : reqInfo url2 net2 = some ri) :
    (process_url url2 net2 (process_url url net fs0 false).fs false).outcome = .ok false
    ∧ countNetworkRequests
        (process_url url2 net2 (process_url url net fs0 false).fs false).trace = 2
    ∧ Ev.createPending ∉
        (process_url url2 net2 (process_url url net fs0 false).fs false).trace := by
  rcases process_url_shape url net fs0 false with
    ⟨hnone, _⟩ | ⟨hnone, _⟩ | ⟨ri', resp, hri', hdl, heq⟩
  · rw [hr1] at hnone; exact absurd hnone (by simp)
  · rw [hr1] at hnone; exact absurd hnone (by simp)
  · have hrr : ri' = ri := by rw [hr1] at hri'; exact (Option.some.inj hri').symm
    subst hrr
    cases hck : checkExisting ri'.actual_filename ri'.expected_crc fs0
        [.fetchPage, .sendDownloadRequest] false with
    | done r =>
      rw [heq] at h1
      simp only [hck] at h1
      obtain ⟨c, _, _, _, hout⟩ := checkExisting_done_inv _ _ _ _ _ _ hck
      rcases hout with ⟨ho, _⟩ | ⟨_, htm⟩ | ⟨_, htm⟩
      · rw [ho] at h1; exact absurd h1 (by simp)
      · exact absurd htm (by simp)
      · exact absurd htm (by simp)
    | proceed fs1 tr1 =>
      rw [heq] at h1 ⊢
      simp only [hck] at h1 ⊢
      obtain ⟨content, hbody, hcrc, hfs⟩ := downloadAndVerify_ok_true_inv _ _ _ _ _ _ h1
      rw [hfs]
      rcases process_url_shape url2 net2 ⟨some content, none⟩ false with
        ⟨hnone2, _⟩ | ⟨hnone2, _⟩ | ⟨ri2, resp2, hri2, hdl2, heq2⟩
      · rw [hr2] at hnone2; exact absurd hnone2 (by simp)
      · rw [hr2] at hnone2; exact absurd hnone2 (by simp)
      · have hrr2 : ri2 = ri' := by rw [hr2] at hri2; exact (Option.some.inj hri2).symm
        subst hrr2
        rw [heq2, checkExisting_match ri2.actual_filename ri2.expected_crc
          ⟨some content, none⟩ _ false content rfl hcrc]
        dsimp only
        exact ⟨rfl, by decide, by decide⟩

/-- Witness for the amended C2: two consecutive runs on the sample
target. -/
theorem C2_second_run_witness :
    (process_url "https://vimm.net/vault/123" sampleNet
        (process_url "https://vimm.net/vault/123" sampleNet ⟨none, none⟩ false).fs
        false).outcome = .ok false
    ∧ countNetworkRequests (process_url "https://vimm.net/vault/123" sampleNet
        (process_url "https://vimm.net/vault/123" sampleNet ⟨none, none⟩ false).fs
        false).trace = 2
    ∧ Ev.createPending ∉ (process_url "https://vimm.net/vault/123" sampleNet
        (process_url "https://vimm.net/vault/123" sampleNet ⟨none, none⟩ false).fs
        false).trace :=
  C2_second_run "https://vimm.net/vault/123" "https://vimm.net/vault/123"
    sampleNet sampleNet ⟨none, none⟩ ⟨"1a2b3c4d", "Game (USA).7z"⟩
    (by decide) (by decide) (by decide)

/-- A request environment whose download stream fails mid-body. -/
def sampleNetMid : NetInput :=
  ⟨some ⟨some ("https://vimm.net/dl", "123"), some " 1A2B3C4D ", some "Game (USA)"⟩,
   some ⟨true, some "attachment; filename=\"Game (USA).7z\"", .midStreamError⟩⟩

/-- Claim C3 fails as stated: after a mid-stream read error the partial
`.pending` staging file is NOT removed — it stays on disk while the
error propagates. -/
theorem C3_counterexample :
    (process_url "https://vimm.net/vault/123" sampleNetMid ⟨none, none⟩ false).outcome =
      .err .midStreamRead
    ∧ (process_url "https://vimm.net/vault/123" sampleNetMid ⟨none, none⟩ false).fs.pending ≠
      none := by
  refine ⟨by decide, by decide⟩

/-- Claim C3 amended: a retryable transfer failure makes process_url
return an error without removing the partial staging file (after a
mid-stream read error the `.pending` file is left on disk, incomplete);
the main loop logs the error, moves on to the remaining targets of the
pass, and the target is retried only on the next pass over links.txt —
there is no per-target sleep, only the 5-second end-of-pass sleep when
nothing was downloaded. -/
theorem C3_transfer_failures :
    (∀ (url : String) (net : NetInput) (fs : FS) (ri : ReqInfo) (resp : DownloadResponse),
      reqInfo url net = some ri → net.download = some resp →
      resp.body = .midStreamError → fs.final = none →
      (process_url url net fs false).outcome = .err .midStreamRead
      ∧ (process_url url net fs false).fs.pending = some .incomplete)
    ∧ (∀ (t : TargetCase) (ts : List TargetCase) (e : ErrKind),
      urlIsValid t.url = true →
      (process_url t.url t.net t.fs test_mode).outcome = .err e →
      runPass (t :: ts) = (.errored e :: (runPass ts).1, (runPass ts).2))
    ∧ (∀ downloadedAny : Bool, sleepsAfterPass downloadedAny = !downloadedAny) := by
  refine ⟨?_, ?_, fun _ => rfl⟩
  · intro url net fs ri resp hri hdl hbody hf
    rcases process_url_shape url net fs false with
      ⟨hnone, _⟩ | ⟨hnone, _⟩ | ⟨ri', resp', hri', hdl', heq⟩
    · rw [hri] at hnone; exact absurd hnone (by simp)
    · rw [hri] at hnone; exact absurd hnone (by simp)
    · have hresp : resp' = resp := by rw [hdl] at hdl'; exact (Option.some.inj hdl'.symm)
      subst hresp
      rw [heq, checkExisting_none ri'.actual_filename ri'.expected_crc fs _ false hf, hbody]
      dsimp only
      rw [downloadAndVerify_midstream]
      exact ⟨rfl, rfl⟩
  · intro t ts e hvalid herr
    simp [runPass, hvalid, herr]

/-- Witness for the amended C3: the concrete mid-stream failure followed
by a pass over a one-target list. -/
theorem C3_transfer_failures_witness :
    ((process_url "https://vimm.net/vault/123" sampleNetMid ⟨none, none⟩ false).outcome =
        .err .midStreamRead
      ∧ (process_url "https://vimm.net/vault/123" sampleNetMid ⟨none, none⟩ false).fs.pending =
        some .incomplete)
    ∧ runPass [⟨"https://vimm.net/vault/123", sampleNetMid, ⟨none, none⟩⟩] =
        ([.errored .midStreamRead], false) :=
  ⟨C3_transfer_failures.1 "https://vimm.net/vault/123" sampleNetMid ⟨none, none⟩
      ⟨"1a2b3c4d", "Game (USA).7z"⟩
      ⟨true, some "attachment; filename=\"Game (USA).7z\"", .midStreamError⟩
      (by decide) (by decide) rfl rfl,
   C3_transfer_failures.2.1 ⟨"https://vimm.net/vault/123", sampleNetMid, ⟨none, none⟩⟩ []
      .midStreamRead (by decide) (by decide)⟩

/-- Witness for C10 at a concrete archive and request environment. -/
theorem C10_normalized_comparison_witness :
    (("1a2b3c4d" : String).length = 8 ∧
      ∀ ch ∈ ("1a2b3c4d" : String).data, isLowerHexChar ch = true)
    ∧ (∃ pd raw, sampleNet.page = some pd ∧ pd.crcSpan = some raw ∧
        (ReqInfo.mk "1a2b3c4d" "Game (USA).7z").expected_crc = rustToLower (rustTrim raw)) :=
  ⟨C10_normalized_comparison.1 "Game (USA).7z" (.sevenZ [⟨true, false, 439041101⟩]) "1a2b3c4d"
      (by decide) (by decide),
   C10_normalized_comparison.2 "https://vimm.net/vault/123" sampleNet
      ⟨"1a2b3c4d", "Game (USA).7z"⟩ (by decide)⟩

end Vimm
